import Mathlib

/-!
Shallow embedding of `global-react-state` (GrantGryczan/global-react-state).

The repository contains three variants of the same publish/subscribe cell:

* `src/index.ts` (and the identical untyped `src/unnamed/part_000`):
  `createGlobalState` with a guarded swap-with-last removal in the
  `useEffect` cleanup, and registration inside `useEffect`;
* `src/unnamed/part_001`, first file: `createSuperState`, whose cleanup
  performs the swap-with-last removal WITHOUT the
  `lastUpdateState !== updateState` guard;
* `src/unnamed/part_001`, second file: a richer `createGlobalState`
  supporting lazy initializers and functional updates, registering the
  observer synchronously in the render body through a ref, with the same
  guarded cleanup.

The cell state is modelled as a record; the mutable JS closures
(`updateState` callbacks) become records carrying their object identity
`id` and their mutable `_index` field.  An entry of `updateStates` aliases
the closure object held by the component, so the closure's current
`_index` field is read off the registry entry with the matching identity.
-/

namespace GlobalReactState

/-- One `updateState` callback in the `updateStates` registry.
`id` models the JS object identity of the closure (used by the
`lastUpdateState !== updateState` comparison and to address the owning
component instance's `useState` slot); `_index` is the mutable `_index`
field the source attaches to the function
(`updateState._index = updateStates.push(updateState) - 1`). -/
structure UpdateState where
  id : Nat
  _index : Nat
deriving DecidableEq, Repr

/-- JS array element assignment `arr[i] = x`: overwrites in range, appends
when `i` equals the length.  (An index strictly beyond the length would
create a sparse array in JS; the removal code below only ever assigns at
an index at most the post-`pop` length, so that case is unreachable and is
collapsed into the append branch.) -/
def jsArraySet (l : List UpdateState) (i : Nat) (x : UpdateState) : List UpdateState :=
  if i < l.length then l.set i x else l ++ [x]

/-- Registration (all variants):
`updateState._index = updateStates.push(updateState) - 1` — the callback
`d` is appended and its `_index` field receives the old length. -/
def pushUpdateState (l : List UpdateState) (d : Nat) : List UpdateState :=
  l ++ [⟨d, l.length⟩]

/-- The `useEffect` cleanup of `useGlobalState` in `src/index.ts`
(lines 66–73; identically in `part_000` and in the richer variant):

```
const lastUpdateState = updateStates.pop() as typeof updateState;
if (lastUpdateState !== updateState) {
  updateStates[updateState._index] = lastUpdateState;
  lastUpdateState._index = updateState._index;
}
```

`d` is the identity of the closure whose cleanup is running; its current
`_index` field is read from the aliasing registry entry.  The `none`
fallbacks are unreachable for well-formed lifecycles (React runs the
cleanup exactly once per mount, after the effect that registered the
slot). -/
def deleteUpdateState (l : List UpdateState) (d : Nat) : List UpdateState :=
  match l.getLast?, l.find? (fun u => u.id == d) with
  | some lastUpdateState, some updateState =>
    if lastUpdateState.id == updateState.id then
      l.dropLast
    else
      jsArraySet l.dropLast updateState._index
        { lastUpdateState with _index := updateState._index }
  | _, _ => l

/-- The `useEffect` cleanup of `useSuperState` in `createSuperState`
(`src/unnamed/part_001`, lines 56–61), which performs the swap
unconditionally:

```
const lastUpdateState = updateStates.pop() as typeof updateState;
updateStates[updateState._index] = lastUpdateState;
lastUpdateState._index = updateState._index;
```

When the removed slot is itself the last one, `pop` removes it and the
assignment `updateStates[updateState._index] = lastUpdateState` writes it
back at index `= length`, re-appending it. -/
def deleteUpdateStateSuper (l : List UpdateState) (d : Nat) : List UpdateState :=
  match l.getLast?, l.find? (fun u => u.id == d) with
  | some lastUpdateState, some updateState =>
    jsArraySet l.dropLast updateState._index
      { lastUpdateState with _index := updateState._index }
  | _, _ => l

/-- The private Cell created by one call to `createGlobalState` /
`createSuperState`.  `currentState` and `updateStates` are the two
closure-captured mutable variables of the source.  `snapshots` maps each
component instance's identity to its local `useState` slot (the value
`setState` last wrote, or the `useState(currentState)` initial value).
`initCalls` is ghost instrumentation counting invocations of the lazy
initializer of the richer variant, and `setGlobalStateRef` models the JS
reference identity of the `setGlobalState` closure, allocated once at
construction and never reassigned (it is a `const`). -/
structure Cell (State : Type) where
  currentState : State
  updateStates : List UpdateState
  snapshots : Nat → State
  initCalls : Nat
  setGlobalStateRef : Nat

/-- `const createGlobalState = (initialState) => { let currentState =
initialState; const updateStates = []; ... }` (`src/index.ts`,
`part_000`; `createSuperState` is identical here).  Snapshots of
not-yet-mounted instances are immaterial; they are defaulted to the
initial state. -/
def createGlobalState {State : Type} (initialState : State) : Cell State :=
  { currentState := initialState
    updateStates := []
    snapshots := fun _ => initialState
    initCalls := 0
    setGlobalStateRef := 0 }

/-- The richer variant's construction (`src/unnamed/part_001`, lines
106–112): `initialState` is either a literal value or a zero-argument
initializer, dispatched by `typeof initialState === 'function'` — here the
sum constructor.  The function case invokes the initializer exactly here,
which the ghost counter records. -/
def createGlobalStateRicher {State : Type} (initialState : State ⊕ (Unit → State)) :
    Cell State :=
  match initialState with
  | Sum.inl v =>
    { currentState := v
      updateStates := []
      snapshots := fun _ => v
      initCalls := 0
      setGlobalStateRef := 0 }
  | Sum.inr f =>
    { currentState := f ()
      updateStates := []
      snapshots := fun _ => f ()
      initCalls := 1
      setGlobalStateRef := 0 }

/-- Pointwise update of the instance snapshots: invoking a registered
`updateState` callback runs `setState(currentState)` on its owning
instance's local slot. -/
def writeSnapshot {State : Type} (snapshots : Nat → State) (d : Nat) (v : State) :
    Nat → State :=
  fun i => if i = d then v else snapshots i

/-- The fan-out loop of the setter:
`for (let i = 0; i < updateStates.length; i++) { updateStates[i](); }`.
Each iteration invokes `updateStates[i]`, whose body is
`setState(currentState)`.  Besides the final snapshots the loop returns a
log recording, in invocation order, each invoked slot's identity paired
with the value of `currentState` it read. -/
def fanOutLoop {State : Type} (currentState : State) :
    List UpdateState → (Nat → State) → (Nat → State) × List (Nat × State)
  | [], snapshots => (snapshots, [])
  | u :: rest, snapshots =>
    let next := fanOutLoop currentState rest (writeSnapshot snapshots u.id currentState)
    (next.1, (u.id, currentState) :: next.2)

/-- `setGlobalState` of `src/index.ts` (lines 44–49):
`currentState = newState;` followed by the fan-out loop.  The returned
cell is the state when the setter returns to its caller (value update and
fan-out both completed); the log is the sequence of callback invocations
performed before returning. -/
def setGlobalState {State : Type} (cell : Cell State) (newState : State) :
    Cell State × List (Nat × State) :=
  let result := fanOutLoop newState cell.updateStates cell.snapshots
  ({ cell with currentState := newState, snapshots := result.1 }, result.2)

/-- `setGlobalState` of the richer variant (`src/unnamed/part_001`, lines
121–129): the argument is a literal value or an updater function,
dispatched by `typeof state === 'function'`; the function case applies the
updater to the previous `currentState`.  Then the same fan-out loop runs. -/
def setGlobalStateRicher {State : Type} (cell : Cell State)
    (state : State ⊕ (State → State)) : Cell State × List (Nat × State) :=
  let newState :=
    match state with
    | Sum.inl v => v
    | Sum.inr f => f cell.currentState
  let result := fanOutLoop newState cell.updateStates cell.snapshots
  ({ cell with currentState := newState, snapshots := result.1 }, result.2)

/-- `getGlobalState` (richer variant line 169, `src/index.ts` line 84):
`() => currentState`. -/
def getGlobalState {State : Type} (cell : Cell State) : State :=
  cell.currentState

/-- The synchronous render body of `useGlobalState` in `src/index.ts` at
an instance's first render: `useState(currentState)` initializes the local
slot from the cell.  Registration is NOT here — it sits inside
`useEffect`, which the host runs after the render pass. -/
def renderFirst {State : Type} (cell : Cell State) (d : Nat) : Cell State :=
  { cell with snapshots := writeSnapshot cell.snapshots d cell.currentState }

/-- The `useEffect` body of `useGlobalState` in `src/index.ts` (lines
59–65, run by the host after the first render): creates `updateState` and
appends it to `updateStates`.  Identical in `part_000` and
`createSuperState`. -/
def mountEffect {State : Type} (cell : Cell State) (d : Nat) : Cell State :=
  { cell with updateStates := pushUpdateState cell.updateStates d }

/-- The synchronous render body of the richer `useGlobalState`
(`src/unnamed/part_001`, lines 139–150) at an instance's first render:
`useState(currentState)` plus the ref-guarded block that creates
`updateState` and pushes it immediately — registration happens during the
render pass itself. -/
def renderFirstRicher {State : Type} (cell : Cell State) (d : Nat) : Cell State :=
  { cell with
      snapshots := writeSnapshot cell.snapshots d cell.currentState
      updateStates := pushUpdateState cell.updateStates d }

/-- The richer variant's `useEffect` body (line 152): it only registers
the unmount cleanup and touches neither the registry nor the snapshots. -/
def mountEffectRicher {State : Type} (cell : Cell State) (_ : Nat) : Cell State :=
  cell

/-- A re-render of an already mounted instance under the richer hook: the
ref guard `if (!updateStateRef.current)` skips registration, `useState`
returns the stored snapshot, and the effect with `[]` deps does not
re-run. -/
def renderAgainRicher {State : Type} (cell : Cell State) (_ : Nat) : Cell State :=
  cell

/-- Unmount of an instance under the guarded variants (`src/index.ts`,
`part_000`, richer variant): the cleanup removes the slot with the guard. -/
def unmountEffect {State : Type} (cell : Cell State) (d : Nat) : Cell State :=
  { cell with updateStates := deleteUpdateState cell.updateStates d }

/-- Unmount of an instance under `createSuperState`: the unguarded
cleanup. -/
def unmountEffectSuper {State : Type} (cell : Cell State) (d : Nat) : Cell State :=
  { cell with updateStates := deleteUpdateStateSuper cell.updateStates d }

/-- What one invocation of the hook returns: `[state, setGlobalState]` —
the instance's snapshot and the reference to the construction-time setter
closure. -/
def useGlobalStateReturn {State : Type} (cell : Cell State) (d : Nat) : State × Nat :=
  (cell.snapshots d, cell.setGlobalStateRef)

/-- One lifecycle or mutation event against a cell.  `mount d` is a
completed mount of a fresh component instance `d` (first render followed
by the registering effect), `unmount d` runs instance `d`'s cleanup, and
`set v` is a call to the setter with a literal value. -/
inductive Op (State : Type) where
  | mount : Nat → Op State
  | unmount : Nat → Op State
  | set : State → Op State

/-- One step of the machine.  `guarded = true` selects the cleanup of
`src/index.ts` / `part_000` / the richer variant; `guarded = false`
selects `createSuperState`'s unguarded cleanup. -/
def stepOp {State : Type} (guarded : Bool) (cell : Cell State) : Op State → Cell State
  | Op.mount d => mountEffect (renderFirst cell d) d
  | Op.unmount d =>
    if guarded then unmountEffect cell d else unmountEffectSuper cell d
  | Op.set v => (setGlobalState cell v).1

/-- Run a sequence of events from a cell. -/
def runOps {State : Type} (guarded : Bool) (cell : Cell State) : List (Op State) → Cell State
  | [] => cell
  | op :: rest => runOps guarded (stepOp guarded cell op) rest

/-- Well-formed interleavings of lifecycle events, as the host framework
produces them: a mount uses an instance identity never seen before (each
mounted component instance gets a fresh closure), and an unmount runs the
cleanup of a currently mounted instance, exactly once. -/
def validFrom {State : Type} (mounted used : List Nat) : List (Op State) → Bool
  | [] => true
  | Op.mount d :: rest => !used.contains d && validFrom (d :: mounted) (d :: used) rest
  | Op.unmount d :: rest => mounted.contains d && validFrom (mounted.erase d) used rest
  | Op.set _ :: rest => validFrom mounted used rest

/-- Well-formed event sequences starting from a freshly constructed cell. -/
def validOps {State : Type} (ops : List (Op State)) : Bool :=
  validFrom [] [] ops

/-- The registry well-formedness the source's bookkeeping maintains:
every slot's `_index` field equals its actual index (equivalently, the
`_index` values are exactly `0, 1, ..., length - 1` in order), and the
slots' identities are pairwise distinct. -/
def RegistryWF (l : List UpdateState) : Prop :=
  l.map UpdateState._index = List.range l.length ∧ (l.map UpdateState.id).Nodup

/-- One event against a cell of the richer variant
(`src/unnamed/part_001`, second file): a completed first mount
(synchronous render, which registers through the ref, followed by the
cleanup-only effect), a re-render of a mounted instance, an unmount, a
setter call with a literal value or an updater function, or a getter
call. -/
inductive OpR (State : Type) where
  | mount : Nat → OpR State
  | render : Nat → OpR State
  | unmount : Nat → OpR State
  | set : State ⊕ (State → State) → OpR State
  | get : OpR State

/-- One step of the richer variant.  `getGlobalState` reads
`currentState` and changes nothing. -/
def stepOpR {State : Type} (cell : Cell State) : OpR State → Cell State
  | OpR.mount d => mountEffectRicher (renderFirstRicher cell d) d
  | OpR.render d => renderAgainRicher cell d
  | OpR.unmount d => unmountEffect cell d
  | OpR.set s => (setGlobalStateRicher cell s).1
  | OpR.get => cell

/-- Run a sequence of richer-variant events from a cell. -/
def runOpsR {State : Type} (cell : Cell State) : List (OpR State) → Cell State
  | [] => cell
  | op :: rest => runOpsR (stepOpR cell op) rest

/-- A family of cells produced by separate `createGlobalState` calls, one
per index.  Each call allocates its own `currentState` and `updateStates`
inside its own closure; the source has no module-level mutable state, so
an operation addressed to one cell is a function of that cell alone. -/
def CellWorld (State : Type) : Type := Nat → Cell State

/-- Separate constructor calls: cell `k` starts from `initial k`. -/
def createCells {State : Type} (initial : Nat → State) : CellWorld State :=
  fun k => createGlobalState (initial k)

/-- Run one event against the cell at index `k`, leaving every other cell
untouched (no ambient shared state exists in the source). -/
def stepWorld {State : Type} (g : Bool) (w : CellWorld State) (k : Nat)
    (op : Op State) : CellWorld State :=
  fun j => if j = k then stepOp g (w j) op else w j

/-- Run a sequence of addressed events against a family of cells. -/
def runWorld {State : Type} (g : Bool) (w : CellWorld State) :
    List (Nat × Op State) → CellWorld State
  | [] => w
  | p :: rest => runWorld g (stepWorld g w p.1 p.2) rest

/-! ### Dynamically typed values

The richer variant's `typeof`-dispatch (`typeof initialState ===
'function'`, `typeof state === 'function'`) inspects runtime values, not
declared types.  To state what that does to function-valued states we
model a small universe of JavaScript runtime values: numbers, `undefined`,
and function values carried as first-order codes with an explicit
application function (a function called with no arguments receives
`undefined`). -/

/-- Codes for the function values used here: `v => v + 1`, constant
functions returning a number, and constant functions returning another
function value. -/
inductive FnCode where
  | incr : FnCode
  | constNum : Int → FnCode
  | constFn : FnCode → FnCode
deriving DecidableEq, Repr

/-- A JavaScript runtime value. -/
inductive JsVal where
  | undef : JsVal
  | num : Int → JsVal
  | fn : FnCode → JsVal
deriving DecidableEq, Repr

/-- Apply a function value to an argument (`incr` on a non-number would
be `NaN` in JS; collapsed to `undef`, which no claim depends on). -/
def jsApply : FnCode → JsVal → JsVal
  | FnCode.incr, JsVal.num n => JsVal.num (n + 1)
  | FnCode.incr, _ => JsVal.undef
  | FnCode.constNum k, _ => JsVal.num k
  | FnCode.constFn c, _ => JsVal.fn c

/-- The `currentState` computation of the richer `setGlobalState` on
runtime values (`src/unnamed/part_001`, lines 121–124):
`typeof state === 'function' ? state(currentState) : state` — matching on
the `fn` constructor is exactly the `typeof` test. -/
def setGlobalStateValue (currentState state : JsVal) : JsVal :=
  match state with
  | JsVal.fn c => jsApply c currentState
  | v => v

/-- The initial `currentState` computation of the richer
`createGlobalState` on runtime values (lines 110–112):
`typeof initialState === 'function' ? initialState() : initialState`; the
zero-argument call passes `undefined`. -/
def initialStateValue (initialState : JsVal) : JsVal :=
  match initialState with
  | JsVal.fn c => jsApply c JsVal.undef
  | v => v

/-! ### Registry well-formedness lemmas -/

theorem range_dropLast (n : Nat) : (List.range n).dropLast = List.range (n - 1) := by
  cases n with
  | zero => simp
  | succ m => rw [List.range_succ, List.dropLast_concat]; simp

theorem range_set_self (n j : Nat) : (List.range n).set j j = List.range n := by
  apply List.ext_getElem
  · simp
  · intro i h1 h2
    rw [List.getElem_set]
    split
    · rw [List.getElem_range]
      omega
    · rfl

theorem nodup_set_of_not_mem {α : Type} {xs : List α} {b : α}
    (h : xs.Nodup) (hb : b ∉ xs) : ∀ j : Nat, (xs.set j b).Nodup := by
  induction xs with
  | nil => intro j; simp
  | cons x rest ih =>
    intro j
    cases j with
    | zero =>
      rw [List.set_cons_zero, List.nodup_cons]
      exact ⟨fun hbr => hb (List.mem_cons_of_mem x hbr), (List.nodup_cons.mp h).2⟩
    | succ m =>
      rw [List.set_cons_succ, List.nodup_cons]
      constructor
      · intro hx
        rcases List.mem_or_eq_of_mem_set hx with hx1 | hx1
        · exact (List.nodup_cons.mp h).1 hx1
        · exact hb (hx1 ▸ List.mem_cons_self x rest)
      · exact ih (List.nodup_cons.mp h).2 (fun hbr => hb (List.mem_cons_of_mem x hbr)) m

theorem regWF_index {l : List UpdateState} (h : RegistryWF l)
    (i : Nat) (hi : i < l.length) : (l.get ⟨i, hi⟩)._index = i := by
  have h2 := congrArg (fun t => t[i]?) h.1
  simp only [List.getElem?_map, List.getElem?_range, hi, if_pos,
    List.getElem?_eq_getElem] at h2
  simpa using h2

theorem regWF_mem {l : List UpdateState} (h : RegistryWF l) {u : UpdateState}
    (hu : u ∈ l) : ∃ hlt : u._index < l.length, l.get ⟨u._index, hlt⟩ = u := by
  obtain ⟨i, hi, hg⟩ := List.mem_iff_getElem.mp hu
  have hidx : u._index = i := by
    rw [← hg]
    simpa using regWF_index h i hi
  subst hidx
  exact ⟨hi, by simpa using hg⟩

theorem regWF_dropLast {l : List UpdateState} (h : RegistryWF l) :
    RegistryWF l.dropLast := by
  constructor
  · rw [List.map_dropLast, h.1, range_dropLast, List.length_dropLast]
  · rw [List.map_dropLast]
    exact List.Nodup.sublist (List.dropLast_sublist _) h.2

theorem regWF_split {l : List UpdateState} {last : UpdateState} (hne : l ≠ [])
    (hlast : l.getLast hne = last) : l.dropLast ++ [last] = l := by
  rw [← hlast]
  exact List.dropLast_append_getLast hne

theorem last_id_not_mem_dropLast {l : List UpdateState} {last : UpdateState}
    (h : RegistryWF l) (hne : l ≠ []) (hlast : l.getLast hne = last) :
    last.id ∉ List.map UpdateState.id l.dropLast := by
  intro hmem
  have h2 := h.2
  rw [← regWF_split hne hlast, List.map_append] at h2
  rcases List.nodup_append.mp h2 with ⟨-, -, hdisj⟩
  exact hdisj hmem (by simp)

theorem regWF_swap {l : List UpdateState} {last updateState : UpdateState}
    (h : RegistryWF l) (hne : l ≠ []) (hlast : l.getLast hne = last)
    (hu : updateState ∈ l) (hid : last.id ≠ updateState.id) :
    RegistryWF (jsArraySet l.dropLast updateState._index
      { last with _index := updateState._index }) := by
  obtain ⟨hlt, hget⟩ := regWF_mem h hu
  have hlen : l.length - 1 < l.length := by
    cases l with
    | nil => exact absurd rfl hne
    | cons a as => simp
  have hlast_get : l.get ⟨l.length - 1, hlen⟩ = last := by
    rw [← hlast, List.getLast_eq_getElem]
    simp
  have hne_idx : updateState._index ≠ l.length - 1 := by
    intro heq
    apply hid
    have hul : updateState = last := by
      rw [← hget, ← hlast_get]
      congr 1
      exact Fin.ext heq
    rw [hul]
  have hidx_lt : updateState._index < l.dropLast.length := by
    rw [List.length_dropLast]
    omega
  rw [jsArraySet, if_pos hidx_lt]
  constructor
  · rw [List.map_set, (regWF_dropLast h).1, List.length_set]
    exact range_set_self _ _
  · rw [List.map_set]
    exact nodup_set_of_not_mem (regWF_dropLast h).2
      (last_id_not_mem_dropLast h hne hlast) _

theorem regWF_push {l : List UpdateState} {d : Nat} (h : RegistryWF l)
    (hd : ∀ u ∈ l, u.id ≠ d) : RegistryWF (pushUpdateState l d) := by
  unfold pushUpdateState
  constructor
  · rw [List.map_append, h.1]
    simp [List.range_succ]
  · rw [List.map_append]
    refine List.Nodup.append h.2 (by simp) ?_
    intro a ha hb
    simp only [List.map_cons, List.map_nil, List.mem_singleton] at hb
    obtain ⟨u, hu, hux⟩ := List.mem_map.mp ha
    exact hd u hu (hux.trans hb)

theorem regWF_delete {l : List UpdateState} (d : Nat) (h : RegistryWF l) :
    RegistryWF (deleteUpdateState l d) := by
  unfold deleteUpdateState
  split
  case _ lastUpdateState updateState hlast hfind =>
    have hne : l ≠ [] := by
      intro h0
      subst h0
      simp at hlast
    have hlastv : l.getLast hne = lastUpdateState := by
      have := List.getLast?_eq_getLast l hne
      rw [hlast] at this
      exact (Option.some.inj this).symm
    have hu : updateState ∈ l := List.mem_of_find?_eq_some hfind
    split
    case _ hguard => exact regWF_dropLast h
    case _ hguard =>
      have hid : lastUpdateState.id ≠ updateState.id := by
        simpa using hguard
      exact regWF_swap h hne hlastv hu hid
  case _ => exact h

theorem regWF_deleteSuper {l : List UpdateState} (d : Nat) (h : RegistryWF l) :
    RegistryWF (deleteUpdateStateSuper l d) := by
  unfold deleteUpdateStateSuper
  split
  case _ lastUpdateState updateState hlast hfind =>
    have hne : l ≠ [] := by
      intro h0
      subst h0
      simp at hlast
    have hlastv : l.getLast hne = lastUpdateState := by
      have := List.getLast?_eq_getLast l hne
      rw [hlast] at this
      exact (Option.some.inj this).symm
    have hu : updateState ∈ l := List.mem_of_find?_eq_some hfind
    by_cases hid : lastUpdateState.id = updateState.id
    · -- the removed slot is the last one: `pop` then the assignment at
      -- `_index = length` re-appends the very same slot, so the registry is
      -- unchanged and in particular still well-formed
      have hlm : lastUpdateState ∈ l := hlastv ▸ List.getLast_mem hne
      have heq : updateState = lastUpdateState :=
        List.inj_on_of_nodup_map h.2 hu hlm (by rw [hid])
      obtain ⟨hlt, hget⟩ := regWF_mem h hu
      have hlen : l.length - 1 < l.length := by
        cases l with
        | nil => exact absurd rfl hne
        | cons a as => simp
      have hlast_get : l.get ⟨l.length - 1, hlen⟩ = lastUpdateState := by
        rw [← hlastv, List.getLast_eq_getElem]
        simp
      have hidx : updateState._index = l.length - 1 := by
        have := regWF_index h (l.length - 1) hlen
        rw [hlast_get, ← heq] at this
        exact this
      have hfull : jsArraySet l.dropLast updateState._index
          { lastUpdateState with _index := updateState._index } = l := by
        rw [jsArraySet, if_neg (by rw [List.length_dropLast]; omega)]
        have hself : { lastUpdateState with _index := updateState._index }
            = lastUpdateState := by
          have hli : lastUpdateState._index = updateState._index := by
            rw [heq]
          rw [← hli]
        rw [hself]
        exact regWF_split hne hlastv
      rw [hfull]
      exact h
    · exact regWF_swap h hne hlastv hu hid
  case _ => exact h

theorem mem_jsArraySet {r : List UpdateState} {j : Nat} {x y : UpdateState}
    (hx : x ∈ jsArraySet r j y) : x ∈ r ∨ x = y := by
  unfold jsArraySet at hx
  split at hx
  · exact List.mem_or_eq_of_mem_set hx
  · rcases List.mem_append.mp hx with hh | hh
    · exact Or.inl hh
    · exact Or.inr (by simpa using hh)

theorem id_mem_of_mem_delete {l : List UpdateState} {d : Nat} {x : UpdateState}
    (hx : x ∈ deleteUpdateState l d) : ∃ y ∈ l, x.id = y.id := by
  unfold deleteUpdateState at hx
  split at hx
  case _ lastUpdateState updateState hlast hfind =>
    have hne : l ≠ [] := by
      intro h0
      subst h0
      simp at hlast
    have hlm : lastUpdateState ∈ l := by
      have := List.getLast?_eq_getLast l hne
      rw [hlast] at this
      exact (Option.some.inj this) ▸ List.getLast_mem hne
    split at hx
    · exact ⟨x, (List.dropLast_sublist l).subset hx, rfl⟩
    · rcases mem_jsArraySet hx with hh | hh
      · exact ⟨x, (List.dropLast_sublist l).subset hh, rfl⟩
      · exact ⟨lastUpdateState, hlm, by rw [hh]⟩
  case _ => exact ⟨x, hx, rfl⟩

theorem id_mem_of_mem_deleteSuper {l : List UpdateState} {d : Nat}
    {x : UpdateState} (hx : x ∈ deleteUpdateStateSuper l d) :
    ∃ y ∈ l, x.id = y.id := by
  unfold deleteUpdateStateSuper at hx
  split at hx
  case _ lastUpdateState updateState hlast hfind =>
    have hne : l ≠ [] := by
      intro h0
      subst h0
      simp at hlast
    have hlm : lastUpdateState ∈ l := by
      have := List.getLast?_eq_getLast l hne
      rw [hlast] at this
      exact (Option.some.inj this) ▸ List.getLast_mem hne
    rcases mem_jsArraySet hx with hh | hh
    · exact ⟨x, (List.dropLast_sublist l).subset hh, rfl⟩
    · exact ⟨lastUpdateState, hlm, by rw [hh]⟩
  case _ => exact ⟨x, hx, rfl⟩

/-! ### The registry invariant along every well-formed lifecycle -/

theorem stepOp_mount_updateStates {State : Type} (g : Bool) (cell : Cell State)
    (d : Nat) : (stepOp g cell (Op.mount d)).updateStates
      = pushUpdateState cell.updateStates d := rfl

theorem stepOp_set_updateStates {State : Type} (g : Bool) (cell : Cell State)
    (v : State) : (stepOp g cell (Op.set v)).updateStates = cell.updateStates := rfl

theorem runOps_registryWF {State : Type} (g : Bool) :
    ∀ (ops : List (Op State)) (cell : Cell State) (mounted used : List Nat),
      validFrom mounted used ops = true →
      RegistryWF cell.updateStates →
      (∀ u ∈ cell.updateStates, u.id ∈ used) →
      RegistryWF (runOps g cell ops).updateStates := by
  intro ops
  induction ops with
  | nil =>
    intro cell _ _ _ hwf _
    exact hwf
  | cons op rest ih =>
    intro cell mounted used hv hwf hsub
    cases op with
    | mount d =>
      rw [validFrom, Bool.and_eq_true] at hv
      obtain ⟨hd, hv⟩ := hv
      have hdused : d ∉ used := by simpa using hd
      refine ih (stepOp g cell (Op.mount d)) (d :: mounted) (d :: used) hv ?_ ?_
      · rw [stepOp_mount_updateStates]
        exact regWF_push hwf (fun u hu hud => hdused (hud ▸ hsub u hu))
      · intro u hu
        rw [stepOp_mount_updateStates] at hu
        rcases List.mem_append.mp hu with hh | hh
        · exact List.mem_cons_of_mem d (hsub u hh)
        · simp only [List.mem_singleton] at hh
          rw [hh]
          exact List.mem_cons_self d used
    | unmount d =>
      rw [validFrom, Bool.and_eq_true] at hv
      obtain ⟨-, hv⟩ := hv
      refine ih (stepOp g cell (Op.unmount d)) (mounted.erase d) used hv ?_ ?_
      · cases g with
        | true => exact regWF_delete d hwf
        | false => exact regWF_deleteSuper d hwf
      · intro u hu
        cases g with
        | true =>
          obtain ⟨y, hy, hxy⟩ := id_mem_of_mem_delete hu
          exact hxy ▸ hsub y hy
        | false =>
          obtain ⟨y, hy, hxy⟩ := id_mem_of_mem_deleteSuper hu
          exact hxy ▸ hsub y hy
    | set v =>
      rw [validFrom] at hv
      refine ih (stepOp g cell (Op.set v)) mounted used hv ?_ ?_
      · rw [stepOp_set_updateStates]
        exact hwf
      · rw [stepOp_set_updateStates]
        exact hsub

/-! ### Fan-out lemmas -/

theorem fanOutLoop_log {State : Type} (v : State) (l : List UpdateState)
    (s : Nat → State) : (fanOutLoop v l s).2 = l.map (fun u => (u.id, v)) := by
  induction l generalizing s with
  | nil => rfl
  | cons u rest ih =>
    show (u.id, v) :: (fanOutLoop v rest (writeSnapshot s u.id v)).2
      = (u.id, v) :: rest.map (fun w => (w.id, v))
    rw [ih]

theorem fanOutLoop_preserves {State : Type} (v : State) (l : List UpdateState)
    (s : Nat → State) (d : Nat) (h : s d = v) : (fanOutLoop v l s).1 d = v := by
  induction l generalizing s with
  | nil => exact h
  | cons u rest ih =>
    show (fanOutLoop v rest (writeSnapshot s u.id v)).1 d = v
    apply ih
    unfold writeSnapshot
    by_cases hd : d = u.id
    · simp [hd]
    · simp [hd, h]

theorem fanOutLoop_snapshot_mem {State : Type} (v : State) (l : List UpdateState)
    (s : Nat → State) : ∀ u ∈ l, (fanOutLoop v l s).1 u.id = v := by
  induction l generalizing s with
  | nil =>
    intro u hu
    simp at hu
  | cons u0 rest ih =>
    intro u hu
    show (fanOutLoop v rest (writeSnapshot s u0.id v)).1 u.id = v
    rcases List.mem_cons.mp hu with hh | hh
    · subst hh
      apply fanOutLoop_preserves
      unfold writeSnapshot
      simp
    · exact ih _ u hh

/-! ### No stale fan-out under the guarded cleanup -/

theorem delete_removes_id {l : List UpdateState} (h : RegistryWF l) (d : Nat) :
    ∀ x ∈ deleteUpdateState l d, x.id ≠ d := by
  unfold deleteUpdateState
  split
  case _ lastUpdateState updateState hlast hfind =>
    have hne : l ≠ [] := by
      intro h0
      subst h0
      simp at hlast
    have hlastv : l.getLast hne = lastUpdateState := by
      have := List.getLast?_eq_getLast l hne
      rw [hlast] at this
      exact (Option.some.inj this).symm
    have hu : updateState ∈ l := List.mem_of_find?_eq_some hfind
    have hud : updateState.id = d := by
      have := List.find?_some hfind
      simpa using this
    split
    case _ hguard =>
      intro x hx hxd
      have hlid : lastUpdateState.id = updateState.id := by simpa using hguard
      apply last_id_not_mem_dropLast h hne hlastv
      rw [hlid, hud, ← hxd]
      exact List.mem_map_of_mem UpdateState.id hx
    case _ hguard =>
      intro x hx hxd
      have hlid : lastUpdateState.id ≠ updateState.id := by simpa using hguard
      obtain ⟨hlt, hget⟩ := regWF_mem h hu
      have hlen : l.length - 1 < l.length := by
        cases l with
        | nil => exact absurd rfl hne
        | cons a as => simp
      have hlast_get : l.get ⟨l.length - 1, hlen⟩ = lastUpdateState := by
        rw [← hlastv, List.getLast_eq_getElem]
        simp
      have hne_idx : updateState._index ≠ l.length - 1 := by
        intro heq
        apply hlid
        have hul : updateState = lastUpdateState := by
          rw [← hget, ← hlast_get]
          congr 1
          exact Fin.ext heq
        rw [hul]
      have hidx_lt : updateState._index < l.dropLast.length := by
        rw [List.length_dropLast]
        omega
      rw [jsArraySet, if_pos hidx_lt] at hx
      obtain ⟨i, hi, hgi⟩ := List.mem_iff_getElem.mp hx
      rw [List.getElem_set] at hgi
      by_cases hij : updateState._index = i
      · rw [if_pos hij] at hgi
        apply hlid
        rw [← hgi] at hxd
        rw [hud]
        exact hxd
      · have hi2 : i < l.dropLast.length := by simpa using hi
        have hi3 : i < l.length := by
          rw [List.length_dropLast] at hi2
          omega
        rw [if_neg hij, List.getElem_dropLast] at hgi
        have hxmem : x ∈ l := hgi ▸ List.getElem_mem hi3
        have hxu : x = updateState :=
          List.inj_on_of_nodup_map h.2 hxmem hu (by rw [hxd, hud])
        have hnd : l.Nodup := List.Nodup.of_map UpdateState.id h.2
        apply hij
        have hgu : l.get ⟨i, hi3⟩ = l.get ⟨updateState._index, hlt⟩ := by
          rw [hget, List.get_eq_getElem, hgi, hxu]
        have := (hnd.getElem_inj_iff).mp (by simpa using hgu)
        omega
  case _ =>
    intro x hx hxd
    -- fallthrough: the registry is unchanged, but then the slot with id `d`
    -- would have been found, contradicting the match falling through
    rename_i hno
    rcases hl : l.getLast? with - | last
    · cases l with
      | nil => cases hx
      | cons a as => simp at hl
    · rcases hf : l.find? (fun u => u.id == d) with - | u
      · have := (List.find?_eq_none.mp hf) x hx
        simp [hxd] at this
      · exact hno last u hl hf

theorem stepOp_unmount_updateStates_true {State : Type} (cell : Cell State)
    (d : Nat) : (stepOp true cell (Op.unmount d)).updateStates
      = deleteUpdateState cell.updateStates d := rfl

theorem runOps_keeps_id_out {State : Type} (d : Nat) :
    ∀ (ops : List (Op State)) (cell : Cell State) (mounted used : List Nat),
      validFrom mounted used ops = true →
      d ∈ used → d ∉ mounted →
      (∀ u ∈ cell.updateStates, u.id ≠ d) →
      ∀ u ∈ (runOps true cell ops).updateStates, u.id ≠ d := by
  intro ops
  induction ops with
  | nil =>
    intro cell _ _ _ _ _ hreg
    exact hreg
  | cons op rest ih =>
    intro cell mounted used hv hdu hdm hreg
    cases op with
    | mount e =>
      rw [validFrom, Bool.and_eq_true] at hv
      obtain ⟨he, hv⟩ := hv
      have heu : e ∉ used := by simpa using he
      have hed : e ≠ d := fun hh => heu (hh ▸ hdu)
      refine ih _ (e :: mounted) (e :: used) hv (List.mem_cons_of_mem e hdu) ?_ ?_
      · intro hh
        rcases List.mem_cons.mp hh with hh1 | hh1
        · exact hed hh1.symm
        · exact hdm hh1
      · intro u hu
        rw [stepOp_mount_updateStates] at hu
        rcases List.mem_append.mp hu with hh | hh
        · exact hreg u hh
        · simp only [List.mem_singleton] at hh
          rw [hh]
          exact hed
    | unmount e =>
      rw [validFrom, Bool.and_eq_true] at hv
      obtain ⟨-, hv⟩ := hv
      refine ih _ (mounted.erase e) used hv hdu
        (fun hh => hdm (List.mem_of_mem_erase hh)) ?_
      intro u hu
      rw [stepOp_unmount_updateStates_true] at hu
      obtain ⟨y, hy, hxy⟩ := id_mem_of_mem_delete hu
      rw [hxy]
      exact hreg y hy
    | set v =>
      rw [validFrom] at hv
      exact ih _ mounted used hv hdu hdm hreg

theorem runOps_no_stale {State : Type} (d : Nat) :
    ∀ (ops : List (Op State)) (cell : Cell State) (mounted used : List Nat),
      validFrom mounted used ops = true →
      RegistryWF cell.updateStates →
      (∀ u ∈ cell.updateStates, u.id ∈ mounted) →
      mounted ⊆ used →
      mounted.Nodup →
      Op.unmount d ∈ ops →
      ∀ u ∈ (runOps true cell ops).updateStates, u.id ≠ d := by
  intro ops
  induction ops with
  | nil =>
    intro _ _ _ _ _ _ _ _ hmem
    exact absurd hmem (List.not_mem_nil _)
  | cons op rest ih =>
    intro cell mounted used hv hwf hids hmu hnd hmem
    rcases List.mem_cons.mp hmem with hh | hh
    · -- the head op is `unmount d`
      subst hh
      rw [validFrom, Bool.and_eq_true] at hv
      obtain ⟨hd, hv⟩ := hv
      have hdm : d ∈ mounted := by simpa using hd
      refine runOps_keeps_id_out d rest _ (mounted.erase d) used hv
        (hmu hdm) (hnd.not_mem_erase) ?_
      intro u hu
      rw [stepOp_unmount_updateStates_true] at hu
      exact delete_removes_id hwf d u hu
    · cases op with
      | mount e =>
        rw [validFrom, Bool.and_eq_true] at hv
        obtain ⟨he, hv⟩ := hv
        have heu : e ∉ used := by simpa using he
        have hem : e ∉ mounted := fun hh1 => heu (hmu hh1)
        refine ih _ (e :: mounted) (e :: used) hv ?_ ?_
          (List.cons_subset_cons e hmu) (List.nodup_cons.mpr ⟨hem, hnd⟩) hh
        · rw [stepOp_mount_updateStates]
          exact regWF_push hwf (fun u hu hud => heu (hud ▸ hmu (hids u hu)))
        · intro u hu
          rw [stepOp_mount_updateStates] at hu
          rcases List.mem_append.mp hu with hh1 | hh1
          · exact List.mem_cons_of_mem e (hids u hh1)
          · simp only [List.mem_singleton] at hh1
            rw [hh1]
            exact List.mem_cons_self e mounted
      | unmount e =>
        rw [validFrom, Bool.and_eq_true] at hv
        obtain ⟨-, hv⟩ := hv
        refine ih _ (mounted.erase e) used hv ?_ ?_
          ((List.erase_subset e mounted).trans hmu) (hnd.erase e) hh
        · rw [stepOp_unmount_updateStates_true]
          exact regWF_delete e hwf
        · intro u hu
          rw [stepOp_unmount_updateStates_true] at hu
          have hune : u.id ≠ e := delete_removes_id hwf e u hu
          obtain ⟨y, hy, hxy⟩ := id_mem_of_mem_delete hu
          exact (List.mem_erase_of_ne hune).mpr (hxy ▸ hids y hy)
      | set v =>
        rw [validFrom] at hv
        refine ih _ mounted used hv ?_ ?_ hmu hnd hh
        · rw [stepOp_set_updateStates]
          exact hwf
        · rw [stepOp_set_updateStates]
          exact hids

/-- The guarded variants (`src/index.ts`, `part_000`, the richer variant)
do satisfy the no-stale-fan-out property the spec states (P3): after any
well-formed interleaving that unmounts instance `d`, a setter call at any
such point invokes no callback of `d` — its fan-out log contains no entry
for `d`. -/
theorem guarded_no_stale_fanout (State : Type) (init : State) (d : Nat)
    (ops : List (Op State)) (v : State) (hv : validOps ops = true)
    (hmem : Op.unmount d ∈ ops) :
    ∀ p ∈ (setGlobalState (runOps true (createGlobalState init) ops) v).2,
      p.1 ≠ d := by
  intro p hp
  have h1 := runOps_no_stale d ops (createGlobalState init) [] [] hv
    ⟨rfl, List.nodup_nil⟩ (by intro u hu; simp [createGlobalState] at hu)
    (List.nil_subset _) List.nodup_nil hmem
  have hp2 : p ∈ (runOps true (createGlobalState init) ops).updateStates.map
      (fun u => (u.id, v)) := by
    rw [← fanOutLoop_log v _ (runOps true (createGlobalState init) ops).snapshots]
    exact hp
  obtain ⟨u, hu, hup⟩ := List.mem_map.mp hp2
  intro hpd
  apply h1 u hu
  rw [← hup] at hpd
  exact hpd

/-! ### The claims -/

/-- Claim C1: for every well-formed interleaving of observer
registrations (mounts) and deregistrations (unmounts) — with setter calls
allowed in between — and under both the guarded cleanup (`src/index.ts`,
`part_000`, the richer variant; `g = true`) and `createSuperState`'s
unguarded cleanup (`g = false`), the registry reached after any prefix of
the interleaving satisfies `RegistryWF`: every `ObserverSlot` present has
its `_index` field equal to its actual index in the sequence (so the
positions are exactly the contiguous range `0..k-1` and no two slots
share one). -/
theorem registry_invariant_all_lifecycles (State : Type) (g : Bool) (init : State)
    (ops : List (Op State)) (hv : validOps ops = true) :
    RegistryWF (runOps g (createGlobalState init) ops).updateStates :=
  runOps_registryWF g ops (createGlobalState init) [] [] hv
    ⟨rfl, List.nodup_nil⟩ (by intro u hu; simp [createGlobalState] at hu)

/-- Witness for C1 at a concrete interleaving, under the unguarded
cleanup. -/
theorem registry_invariant_all_lifecycles_witness :
    validOps ([Op.mount 0, Op.mount 1, Op.unmount 0, Op.set 5, Op.unmount 1]
        : List (Op Nat)) = true ∧
    RegistryWF (runOps false (createGlobalState (0 : Nat))
      [Op.mount 0, Op.mount 1, Op.unmount 0, Op.set 5, Op.unmount 1]).updateStates :=
  ⟨by decide, registry_invariant_all_lifecycles Nat false 0
    [Op.mount 0, Op.mount 1, Op.unmount 0, Op.set 5, Op.unmount 1] (by decide)⟩

/-- Claim C2, evaluated at the failing input.  In `createSuperState`'s
cleanup, removing the slot that sits at the last index does NOT shrink the
registry: `pop` removes it but the unconditional
`updateStates[updateState._index] = lastUpdateState` writes it back at
index `= length`, re-appending it.  So for a one-slot registry (and for
the last slot of a two-slot registry) the length does not decrease and the
removed callback is still present — while the guarded cleanup of
`src/index.ts` removes exactly that slot as the claim describes. -/
theorem superState_remove_last_slot_not_removed :
    deleteUpdateStateSuper [⟨0, 0⟩] 0 = [⟨0, 0⟩] ∧
    deleteUpdateStateSuper [⟨5, 0⟩, ⟨9, 1⟩] 9 = [⟨5, 0⟩, ⟨9, 1⟩] ∧
    deleteUpdateState [⟨0, 0⟩] 0 = [] ∧
    deleteUpdateState [⟨5, 0⟩, ⟨9, 1⟩] 9 = [⟨5, 0⟩] ∧
    deleteUpdateState [⟨5, 0⟩, ⟨9, 1⟩, ⟨7, 2⟩] 5 = [⟨7, 0⟩, ⟨9, 1⟩] := by
  decide

/-- Claim C3, evaluated at the failing input.  Mount instance 0 on a
fresh `createSuperState` cell and unmount it; its slot is still in the
registry, and a subsequent setter call invokes the unmounted instance's
callback: the fan-out log is `[(0, 7)]` and instance 0's snapshot is
overwritten.  Under the guarded cleanup of `src/index.ts` the registry is
empty after the unmount and the same setter call invokes nothing. -/
theorem superState_stale_callback_invoked :
    (setGlobalState (runOps false (createGlobalState (0 : Nat))
      [Op.mount 0, Op.unmount 0]) 7).2 = [(0, 7)] ∧
    (setGlobalState (runOps false (createGlobalState (0 : Nat))
      [Op.mount 0, Op.unmount 0]) 7).1.snapshots 0 = 7 ∧
    (setGlobalState (runOps true (createGlobalState (0 : Nat))
      [Op.mount 0, Op.unmount 0]) 7).2 = [] := by
  decide

/-- Claim C4: for every cell contents, the setter replaces `currentState`
with the new value first, then invokes every slot currently registered, in
ascending index order: the fan-out log lists exactly the registered slot
identities in registry order, each invocation reading the already-updated
value; the cell returned (the state at the moment the setter returns to
its caller) has the value update and the entire fan-out completed — every
registered instance's snapshot holds the new value.  The richer setter
does the same, the new value being the literal or the updater applied to
the previous value. -/
theorem setter_updates_value_then_notifies (State : Type) (cell : Cell State)
    (v : State) (f : State → State) :
    (setGlobalState cell v).1.currentState = v ∧
    (setGlobalState cell v).2 = cell.updateStates.map (fun u => (u.id, v)) ∧
    (∀ u ∈ cell.updateStates, (setGlobalState cell v).1.snapshots u.id = v) ∧
    (setGlobalStateRicher cell (Sum.inl v)).1 = (setGlobalState cell v).1 ∧
    (setGlobalStateRicher cell (Sum.inr f)).1.currentState = f cell.currentState ∧
    (setGlobalStateRicher cell (Sum.inr f)).2
      = cell.updateStates.map (fun u => (u.id, f cell.currentState)) :=
  ⟨rfl, fanOutLoop_log v _ _, fanOutLoop_snapshot_mem v _ _, rfl, rfl,
    fanOutLoop_log _ _ _⟩

/-- Witness for C4: one registered slot (identity 3), setter call with 7. -/
theorem setter_updates_value_then_notifies_witness :
    ((⟨3, 0⟩ : UpdateState) ∈ (mountEffect (createGlobalState (0 : Nat)) 3).updateStates) ∧
    (setGlobalState (mountEffect (createGlobalState (0 : Nat)) 3) 7).1.snapshots 3 = 7 :=
  ⟨by decide, (setter_updates_value_then_notifies Nat
    (mountEffect (createGlobalState 0) 3) 7 id).2.2.1 ⟨3, 0⟩ (by decide)⟩

/-- Claim C5 counterexample: under `src/index.ts` registration does not
happen during the synchronous portion of the first render pass — after the
synchronous render of instance 0 on a fresh cell the registry is still
empty, because registration sits in the deferred `useEffect`.  This
refutes the claim's "in every variant". -/
theorem registration_not_synchronous_in_index_ts :
    (renderFirst (createGlobalState (0 : Nat)) 0).updateStates = [] := rfl

/-- Claim C5 as amended: in the richer variant registration happens during
the synchronous portion of the first render pass (the slot is in the
registry when the hook returns, before any lifecycle effect runs, whose
body changes nothing); in the simpler variants (`src/index.ts`,
`part_000`, `createSuperState`) the synchronous render leaves the registry
unchanged and the slot is only appended by the deferred post-render
`useEffect`. -/
theorem registration_timing_by_variant (State : Type) (cell : Cell State) (d : Nat) :
    (renderFirstRicher cell d).updateStates
      = cell.updateStates ++ [⟨d, cell.updateStates.length⟩] ∧
    (mountEffectRicher (renderFirstRicher cell d) d).updateStates
      = (renderFirstRicher cell d).updateStates ∧
    (renderFirst cell d).updateStates = cell.updateStates ∧
    (mountEffect (renderFirst cell d) d).updateStates
      = cell.updateStates ++ [⟨d, cell.updateStates.length⟩] :=
  ⟨rfl, rfl, rfl, rfl⟩

/-- Claim C6: in the richer variant, when `currentState` is 5, calling the
setter with the updater `v => v + 1` results in `currentState` being 6,
and `getGlobalState` then returns 6. -/
theorem functional_update_from_five (cell : Cell Nat) (h : cell.currentState = 5) :
    (setGlobalStateRicher cell (Sum.inr (fun v => v + 1))).1.currentState = 6 ∧
    getGlobalState (setGlobalStateRicher cell (Sum.inr (fun v => v + 1))).1 = 6 := by
  constructor <;> · show cell.currentState + 1 = 6
                    rw [h]

/-- Witness for C6 on a freshly constructed cell holding 5. -/
theorem functional_update_from_five_witness :
    (createGlobalStateRicher (Sum.inl 5 : Nat ⊕ (Unit → Nat))).currentState = 5 ∧
    (setGlobalStateRicher (createGlobalStateRicher (Sum.inl 5 : Nat ⊕ (Unit → Nat)))
      (Sum.inr (fun v => v + 1))).1.currentState = 6 ∧
    getGlobalState (setGlobalStateRicher
      (createGlobalStateRicher (Sum.inl 5 : Nat ⊕ (Unit → Nat)))
      (Sum.inr (fun v => v + 1))).1 = 6 :=
  ⟨rfl, functional_update_from_five
    (createGlobalStateRicher (Sum.inl 5 : Nat ⊕ (Unit → Nat))) rfl⟩

/-- Claim C7: a zero-argument initializer given to the richer
`createGlobalState` is invoked exactly once, at construction
(`currentState = typeof initialState === 'function' ? initialState() :
initialState`), and never again: the invocation counter is 1 right after
construction and still 1 after any sequence of mounts, re-renders,
unmounts, setter calls (literal or updater) and getter calls. -/
theorem lazy_initializer_invoked_once (State : Type) (f : Unit → State)
    (ops : List (OpR State)) :
    (createGlobalStateRicher (Sum.inr f)).initCalls = 1 ∧
    (runOpsR (createGlobalStateRicher (Sum.inr f)) ops).initCalls = 1 := by
  refine ⟨rfl, ?_⟩
  have key : ∀ (ops : List (OpR State)) (cell : Cell State),
      (runOpsR cell ops).initCalls = cell.initCalls := by
    intro ops
    induction ops with
    | nil => intro cell; rfl
    | cons op rest ih =>
      intro cell
      rw [runOpsR, ih]
      cases op <;> rfl
  rw [key]
  rfl

/-- Claim C8: the setter reference returned by the hook is the
construction-time `setGlobalState` closure, in both the simple and the
richer variant, after any number of renders and any interleaving of
events — so every hook invocation on every instance returns the identical
reference, which is also the reference the cell constructor returned, and
it never changes over the cell's lifetime. -/
theorem setter_reference_stable (State : Type) (g : Bool) (init : State)
    (initR : State ⊕ (Unit → State)) (ops : List (Op State))
    (opsR : List (OpR State)) (d e : Nat) :
    (useGlobalStateReturn (runOps g (createGlobalState init) ops) d).2
      = (createGlobalState init).setGlobalStateRef ∧
    (useGlobalStateReturn (runOpsR (createGlobalStateRicher initR) opsR) e).2
      = (createGlobalStateRicher initR).setGlobalStateRef := by
  have key1 : ∀ (ops : List (Op State)) (cell : Cell State),
      (runOps g cell ops).setGlobalStateRef = cell.setGlobalStateRef := by
    intro ops
    induction ops with
    | nil => intro cell; rfl
    | cons op rest ih =>
      intro cell
      rw [runOps, ih]
      cases op <;> cases g <;> rfl
  have key2 : ∀ (opsR : List (OpR State)) (cell : Cell State),
      (runOpsR cell opsR).setGlobalStateRef = cell.setGlobalStateRef := by
    intro opsR
    induction opsR with
    | nil => intro cell; rfl
    | cons op rest ih =>
      intro cell
      rw [runOpsR, ih]
      cases op <;> rfl
  exact ⟨key1 ops _, key2 opsR _⟩

/-- Claim C9: cells produced by separate `createGlobalState` calls are
fully isolated: any sequence of setter calls, registrations and
deregistrations addressed entirely to other cells leaves a given cell —
its `currentState`, its observer registry, and its instances' snapshots —
unchanged. -/
theorem cells_fully_isolated (State : Type) (g : Bool) (initial : Nat → State)
    (ops : List (Nat × Op State)) (j : Nat) (hj : ∀ p ∈ ops, p.1 ≠ j) :
    runWorld g (createCells initial) ops j = createCells initial j := by
  have key : ∀ (ops : List (Nat × Op State)) (w : CellWorld State),
      (∀ p ∈ ops, p.1 ≠ j) → runWorld g w ops j = w j := by
    intro ops
    induction ops with
    | nil =>
      intro w _
      rfl
    | cons p rest ih =>
      intro w hp
      rw [runWorld, ih _ (fun q hq => hp q (List.mem_cons_of_mem p hq))]
      unfold stepWorld
      rw [if_neg (Ne.symm (hp p (List.mem_cons_self p rest)))]
  exact key ops _ hj

/-- Witness for C9: mounting into and setting cell 0 leaves cell 1
untouched. -/
theorem cells_fully_isolated_witness :
    (∀ p ∈ ([(0, Op.mount 4), (0, Op.set 9)] : List (Nat × Op Nat)), p.1 ≠ 1) ∧
    runWorld true (createCells (fun k => k)) [(0, Op.mount 4), (0, Op.set 9)] 1
      = createCells (fun k => k) 1 :=
  ⟨by decide, cells_fully_isolated Nat true (fun k => k)
    [(0, Op.mount 4), (0, Op.set 9)] 1 (by decide)⟩

/-- Claim C10: the richer variant's value-vs-updater branch tests runtime
callability: any function value passed to the setter is applied to the
previous state — the stored value is `f(previous)`, never the passed
function itself — and a function value passed as the initial state is
called (with no arguments) and its result stored.  Concretely, passing
`v => v + 1` over state 5 stores 6, not the function, so function-valued
states cannot be stored literally through the public interface. -/
theorem typeof_dispatch_applies_function_values :
    (∀ (c : FnCode) (prev : JsVal),
      setGlobalStateValue prev (JsVal.fn c) = jsApply c prev) ∧
    (∀ c : FnCode, initialStateValue (JsVal.fn c) = jsApply c JsVal.undef) ∧
    setGlobalStateValue (JsVal.num 5) (JsVal.fn FnCode.incr) = JsVal.num 6 ∧
    setGlobalStateValue (JsVal.num 5) (JsVal.fn FnCode.incr) ≠ JsVal.fn FnCode.incr ∧
    initialStateValue (JsVal.fn (FnCode.constNum 3)) = JsVal.num 3 :=
  ⟨fun _ _ => rfl, fun _ => rfl, rfl, by decide, rfl⟩

end GlobalReactState
